import Mathlib

/-!
# Verification of the bazo-miner contract VM (`vm.go`)

A shallow embedding of the interpreter in `src/vm/vm.go` together with the
helper components it uses (evaluation stack, call stack, opcode table,
array/map heap objects, byte/big-integer codecs).  The helper components are
not part of the provided sources; they are modelled from the specification
(each such definition carries a doc comment saying so).  Go `big.Int` values
are modelled as `Int`, byte strings as `List Nat` (each entry a byte value),
and the fetch-decode-dispatch loop as a fuel-indexed iteration of a `step`
function.
-/

namespace BazoVM

/-- Go `big.Int.SetBytes`: interpret a byte list as an unsigned big-endian
integer. -/
def bytesToNat (bs : List Nat) : Nat :=
  bs.foldl (fun a b => a * 256 + b) 0

/-- Fuel-indexed big-endian digit expansion in base 256 (structural
recursion, so that concrete evaluation reduces inside the kernel); any fuel
of at least the digit count gives the exact expansion. -/
def natToBytesAux : Nat → Nat → List Nat
  | 0, _ => []
  | fuel + 1, n => if n = 0 then [] else natToBytesAux fuel (n / 256) ++ [n % 256]

/-- Go `big.Int.Bytes`: big-endian magnitude bytes of a natural number, with no
leading zero byte; `0` encodes as the empty list. -/
def natToBytes (n : Nat) : List Nat := natToBytesAux n n

/-- Go `StrToBigInt`: a string as a big integer whose byte representation is the
string (modelled from the spec; the helper itself is not in the sources). -/
def strToBigInt (s : String) : Int :=
  (bytesToNat (s.toList.map Char.toNat) : Int)

/-- Go `BigIntToString`: decode a big integer's magnitude bytes as a string
(modelled from the spec; the helper itself is not in the sources). -/
def bigIntToString (v : Int) : String :=
  String.mk ((natToBytes v.natAbs).map Char.ofNat)

/-- Fuel-indexed ceiling base-2 logarithm (structural recursion); any fuel of
at least `n` gives the exact value. -/
def clog2Aux : Nat → Nat → Nat
  | 0, _ => 0
  | fuel + 1, n => if n ≤ 1 then 0 else clog2Aux fuel ((n + 1) / 2) + 1

/-- Smallest power of two that is at least `n` (`nextPow2` of the spec). -/
def nextPow2 (n : Nat) : Nat := 2 ^ clog2Aux n n

/-- Modelled from the spec: `getElementMemoryUsage` — the per-element memory
quota charge, `nextPow2(max(⌈bitlen/8⌉, 8))`.  We compute `⌈bitlen/8⌉` as the
length of the big-endian magnitude byte string, which is the same number. -/
def elemSize (v : Int) : Nat :=
  nextPow2 (max (natToBytes v.natAbs).length 8)

/-- Modelled from the spec: the evaluation stack's running memory total, the
sum of the per-element charges. -/
def memUsage (stack : List Int) : Nat :=
  (stack.map elemSize).sum

/-- Modelled from the spec: the stack's global memory quota is
implementation-defined and uniform across the network; we fix it at 10^6
bytes. -/
def maxMemory : Nat := 1000000

/-- The interpreter's error values.  In the Go sources each failure site
builds an `error` with a fixed message; we collect those sites in one
inductive so that the message strings can be reasoned about uniformly.
Messages of helpers missing from the sources are modelled from the spec. -/
inductive VmErr where
  | fetchOOB            -- fetch/fetchMany beyond end of code
  | popEmpty            -- Pop on empty evaluation stack
  | peekEmpty           -- Peek on empty evaluation stack
  | stackOverflow       -- push exceeding the memory quota
  | rollOOB             -- roll index out of bounds (vm.go literal)
  | divByZero           -- division/modulo by zero (vm.go literal)
  | returnAddressOOB    -- call/callif target out of bounds (vm.go literal)
  | callStackEmpty      -- Peek/Pop on empty call stack
  | cvOOB               -- contract-variable index out of bounds
  | calldataOOB         -- calldata truncation (vm.go literal)
  | notAMap             -- MapFromBigInt tag/shape failure
  | keyNotFound         -- Map.GetVal missing key
  | notAnArray          -- ArrayFromBigInt tag/shape failure
  | arrAppendSize       -- ARRAPPEND oversized element (vm.go literal)
  | wrongIndexSize      -- ARRINSERT index wider than 2 bytes (vm.go literal)
  | indexOOBCap         -- arrinsert/calldata "Index out of bounds" (vm.go literal)
  | arrIndexOOB         -- array At/Remove index out of bounds
  | ui16Invalid         -- ByteArrayToUI16 on more than 2 bytes
  | notValidAddress     -- checksig public key not 64 bytes (vm.go literal)
  | notValidHash        -- checksig hash not 32 bytes (vm.go literal)
  deriving DecidableEq

/-- The message text carried by each error value. -/
def errMsg : VmErr → String
  | .fetchOOB => "instructionSet out of bounds"
  | .popEmpty => "pop on empty stack"
  | .peekEmpty => "peek on empty stack"
  | .stackOverflow => "stack overflow"
  | .rollOOB => "index out of bounds"
  | .divByZero => "Division by Zero"
  | .returnAddressOOB => "ReturnAddress out of bounds"
  | .callStackEmpty => "peek on empty call stack"
  | .cvOOB => "index out of bounds of contract variables"
  | .calldataOOB => "Index out of bounds"
  | .notAMap => "not a map"
  | .keyNotFound => "key not found"
  | .notAnArray => "not an array"
  | .arrAppendSize => "Invalid argument size of ARRAPPEND"
  | .wrongIndexSize => "Wrong index size"
  | .indexOOBCap => "Index out of bounds"
  | .arrIndexOOB => "index out of bounds"
  | .ui16Invalid => "invalid parameters for byte array to uint16"
  | .notValidAddress => "Not a valid address"
  | .notValidHash => "Not a valid hash"

/-! ## Host context, frames and the machine state -/

/-- The `Context` host bridge of `vm.go` (§4.6 of the spec), flattened into a
record of data fields.  The two cryptographic library routines used by the
interpreter (`ecdsa.Verify` and `sha3.New256`) are not part of the repository;
they appear as abstract function fields of the host environment. -/
structure Ctx where
  contract : List Nat
  contractVariables : List Int
  address : List Nat
  issuer : List Nat
  balance : Nat
  sender : List Nat
  amount : Nat
  transactionData : List Nat
  fee : Nat
  sig1 : List Nat
  ecdsaVerify : List Nat → List Nat → List Nat → Bool
  sha3hash : List Nat → List Nat

/-- A call-stack frame: return program counter and the indexed local-variable
table (a Go map; we model it as an association list whose lookup prefers the
most recent binding, with `0` for unset indices). -/
structure Frame where
  returnAddress : Nat
  vars : List (Nat × Int)   -- the Go field is named `variables`
  deriving DecidableEq

/-- Go map read `frame.variables[i]` (zero value for a missing key). -/
def Frame.lookupVar (f : Frame) (i : Nat) : Int :=
  ((f.vars.lookup i).getD 0)

/-- The interpreter state: `vm.code`, `vm.pc`, the evaluation stack (top
first), the call stack (top first), the bound context (whose
`contractVariables` are the persistent storage cells mutated by `sstore`),
and the remaining fee, which `Exec` keeps in a local variable. -/
structure VMState where
  code : List Nat
  pc : Nat
  stack : List Int
  callStack : List Frame
  ctx : Ctx
  fee : Nat

/-! ## Evaluation-stack, call-stack and fetch primitives

The evaluation stack and call stack implementations are not under `src/`;
they are modelled from the spec (§4.2, §4.3): push is rejected when the
memory quota would be exceeded, pop/peek fail on the empty stack, and
`PopIndexAt i` removes the i-th element counted from the bottom.  Each
returns its result Go-style, as value plus optional error, leaving the state
unchanged on failure. -/

/-- Go `evaluationStack.Pop()`. -/
def popV (s : VMState) : Int × VMState × Option VmErr :=
  match s.stack with
  | [] => (0, s, some .popEmpty)
  | v :: rest => (v, { s with stack := rest }, none)

/-- Go `evaluationStack.Peek()`. -/
def peekV (s : VMState) : Int × Option VmErr :=
  match s.stack with
  | [] => (0, some .peekEmpty)
  | v :: _ => (v, none)

/-- Go `evaluationStack.Push(v)`: rejected when the element's rounded-up size
added to the running total would exceed the quota. -/
def pushV (s : VMState) (v : Int) : VMState × Option VmErr :=
  if memUsage s.stack + elemSize v > maxMemory then (s, some .stackOverflow)
  else ({ s with stack := v :: s.stack }, none)

/-- Go `evaluationStack.GetLength()`. -/
def stackLen (s : VMState) : Nat := s.stack.length

/-- Go `evaluationStack.PopIndexAt(i)`: remove and return the element at index
`i` counted from the bottom of the stack. -/
def popIndexAt (s : VMState) (i : Nat) : Int × VMState × Option VmErr :=
  let fromTop := s.stack.length - 1 - i
  match s.stack[fromTop]? with
  | none => (0, s, some .rollOOB)
  | some v => (v, { s with stack := s.stack.eraseIdx fromTop }, none)

/-- The `vm.evaluationStack.Push(StrToBigInt(msg))` idiom used on every error
path: attempt to push the error string, discarding any push error. -/
def errPush (s : VMState) (msg : String) : VMState :=
  (pushV s (strToBigInt msg)).1

/-- Go `vm.fetch()`: read one code byte at `pc` and advance, or fail with
*instructionSet out of bounds* leaving the state unchanged. -/
def fetch1 (s : VMState) : Nat × VMState × Option VmErr :=
  match s.code[s.pc]? with
  | some b => (b, { s with pc := s.pc + 1 }, none)
  | none => (0, s, some .fetchOOB)

/-- Go `vm.fetchMany(k)`: read `k` code bytes starting at `pc`.  As in the
source, the read succeeds only when `len(code) - pc > k`, i.e. at least
`k + 1` bytes remain. -/
def fetchMany (s : VMState) (k : Nat) : List Nat × VMState × Option VmErr :=
  if s.code.length - s.pc > k then
    ((s.code.drop s.pc).take k, { s with pc := s.pc + k }, none)
  else ([], s, some .fetchOOB)

/-- Go `checkErrors`: the first error of a list, if any. -/
def firstErr : List (Option VmErr) → Option VmErr
  | [] => none
  | some e :: _ => some e
  | none :: rest => firstErr rest

/-- Go `big.Int.Int64()`: the low 64 bits of the magnitude reinterpreted as a
two's-complement `int64`, negated (with wrap-around) for negative values. -/
def goInt64 (x : Int) : Int :=
  let w : Nat := x.natAbs % 2 ^ 64
  let v : Int := if w < 2 ^ 63 then (w : Int) else (w : Int) - 2 ^ 64
  if x < 0 then (if v = -(2 ^ 63 : Int) then v else -v) else v

/-- Modelled from the spec: `ByteArrayToUI16` decodes at most two big-endian
bytes as an unsigned 16-bit integer and rejects longer inputs. -/
def byteArrayToUI16 (bs : List Nat) : Nat × Option VmErr :=
  if bs.length > 2 then (0, some .ui16Invalid) else (bytesToNat bs, none)

/-- Little-endian 8-byte encoding of a `uint64`
(`binary.LittleEndian.PutUint64`). -/
def leBytes8 (n : Nat) : List Nat :=
  [n % 256, n / 256 % 256, n / 256 ^ 2 % 256, n / 256 ^ 3 % 256,
   n / 256 ^ 4 % 256, n / 256 ^ 5 % 256, n / 256 ^ 6 % 256, n / 256 ^ 7 % 256]

/-! ## Array and Map heap objects

Modelled from the spec (§3, §4.4): an Array's wire form is
`0x02 ‖ repeat(len_be_u16(elem) ‖ elem)`, a Map's is
`0x01 ‖ count_be_u16 ‖ repeat(len_be_u16(key) ‖ key ‖ len_be_u16(val) ‖ val)`;
both live on the stack as the unsigned magnitude of one big integer.
`FromBigInt` validates the tag and the lengths. -/

/-- Big-endian 2-byte length prefix. -/
def len2 (n : Nat) : List Nat := [n / 256 % 256, n % 256]

/-- Fuel-indexed worker for `parseArrElems` (structural recursion; each step
consumes at least two bytes, so fuel `bs.length` is always enough). -/
def parseArrElemsAux : Nat → List Nat → Option (List (List Nat))
  | _, [] => some []
  | 0, _ :: _ => none
  | fuel + 1, l1 :: l2 :: rest =>
    let n := l1 * 256 + l2
    if n ≤ rest.length then
      match parseArrElemsAux fuel (rest.drop n) with
      | some es => some (rest.take n :: es)
      | none => none
    else none
  | _ + 1, [_] => none

/-- Parse the element list of an Array wire form (everything after the tag
byte): a sequence of `len_be_u16 ‖ element` chunks consuming the whole
input. -/
def parseArrElems (bs : List Nat) : Option (List (List Nat)) :=
  parseArrElemsAux bs.length bs

/-- Go `ArrayFromBigInt`: check the `0x02` tag, then parse the elements. -/
def arrayFromBigInt (v : Int) : Option (List (List Nat)) :=
  match natToBytes v.natAbs with
  | 2 :: rest => parseArrElems rest
  | _ => none

/-- Go `Array.ToBigInt`: serialize the element list back into one word. -/
def arrayToBigInt (es : List (List Nat)) : Int :=
  (bytesToNat (2 :: (es.map (fun e => len2 e.length ++ e)).flatten) : Int)

/-- Parse exactly `count` map entries. -/
def parseMapEntries (count : Nat) (bs : List Nat) :
    Option (List (List Nat × List Nat)) :=
  match count, bs with
  | 0, [] => some []
  | 0, _ :: _ => none
  | c + 1, k1 :: k2 :: rest =>
    let kn := k1 * 256 + k2
    if kn ≤ rest.length then
      let key := rest.take kn
      match rest.drop kn with
      | v1 :: v2 :: rest2 =>
        let vn := v1 * 256 + v2
        if vn ≤ rest2.length then
          match parseMapEntries c (rest2.drop vn) with
          | some es => some ((key, rest2.take vn) :: es)
          | none => none
        else none
      | _ => none
    else none
  | _ + 1, _ => none

/-- Go `MapFromBigInt`: check the `0x01` tag and the entry count, then parse
exactly that many key/value pairs. -/
def mapFromBigInt (v : Int) : Option (List (List Nat × List Nat)) :=
  match natToBytes v.natAbs with
  | 1 :: c1 :: c2 :: rest => parseMapEntries (c1 * 256 + c2) rest
  | _ => none

/-- Go `Map.ToBigInt`: serialize the entry list back into one word. -/
def mapToBigInt (es : List (List Nat × List Nat)) : Int :=
  (bytesToNat (1 :: len2 es.length ++
    (es.map (fun e => len2 e.1.length ++ e.1 ++ len2 e.2.length ++ e.2)).flatten) : Int)

/-- Go `Map.Append(k, v)`: insertion with duplicate keys disallowed; the `vm.go`
call site ignores the result, so a duplicate key leaves the map unchanged. -/
def mapAppend (es : List (List Nat × List Nat)) (k v : List Nat) :
    List (List Nat × List Nat) :=
  if (es.lookup k).isSome then es else es ++ [(k, v)]

/-- Go `Map.GetVal(k)`: lookup, failing when the key is absent. -/
def mapGetVal (es : List (List Nat × List Nat)) (k : List Nat) :
    Option (List Nat) :=
  es.lookup k

/-- Go `Map.SetVal(k, v)`: overwrite in place, or append when absent. -/
def mapSetVal (es : List (List Nat × List Nat)) (k v : List Nat) :
    List (List Nat × List Nat) :=
  if (es.lookup k).isSome then es.map (fun e => if e.1 = k then (k, v) else e)
  else es ++ [(k, v)]

/-- Go `Map.Remove(k)`: drop every entry with the key. -/
def mapRemove (es : List (List Nat × List Nat)) (k : List Nat) :
    List (List Nat × List Nat) :=
  es.filter (fun e => e.1 ≠ k)

/-- Go `Array.At(index)`. -/
def arrAt (es : List (List Nat)) (i : Nat) : Option (List Nat) := es[i]?

/-- Go `Array.Remove(index)`, failing when the index is out of bounds. -/
def arrRemove (es : List (List Nat)) (i : Nat) : Option (List (List Nat)) :=
  if i < es.length then some (es.eraseIdx i) else none

/-- Go `Array.Insert(index, element)` (index already checked `< size` at the
call site): insert the element before position `index`. -/
def arrInsertAt (es : List (List Nat)) (i : Nat) (e : List Nat) :
    List (List Nat) :=
  es.take i ++ [e] ++ es.drop i

/-! ## The opcode table

Modelled from the spec (§4.5, §4.7, §6): one entry per recognized opcode, in
the order of §4.7's listing; the byte value of an opcode is its index.  The
spec fixes only that each gas price is a non-negative integer; we charge 1
for every opcode. -/

/-- The opcodes recognized by the interpreter. -/
inductive Op where
  | push | dup | roll | pop
  | add | sub | mult | div | mod | neg
  | eq | neq | lt | gt | lte | gte | shiftl | shiftr
  | nop | jmp | jmpif | call | callif | ret | callext | halt | errhalt
  | sstore | sload | store | load
  | address | issuer | caller | balance | callval | calldata
  | newmap | mappush | mapgetval | mapsetval | mapremove
  | newarr | arrappend | arrinsert | arrremove | arrat
  | size | sha3 | checksig
  deriving DecidableEq

/-- The `OpCodes` table as a slice: the byte value of an opcode is its
index. -/
def opTable : List Op :=
  [.push, .dup, .roll, .pop,
   .add, .sub, .mult, .div, .mod, .neg,
   .eq, .neq, .lt, .gt, .lte, .gte, .shiftl, .shiftr,
   .nop, .jmp, .jmpif, .call, .callif, .ret, .callext, .halt, .errhalt,
   .sstore, .sload, .store, .load,
   .address, .issuer, .caller, .balance, .callval, .calldata,
   .newmap, .mappush, .mapgetval, .mapsetval, .mapremove,
   .newarr, .arrappend, .arrinsert, .arrremove, .arrat,
   .size, .sha3, .checksig]

/-- Go `OpCodes[b]` as a lookup that can fail: `none` means the byte indexes past the
end of the table. -/
def decodeOp (b : Nat) : Option Op := opTable[b]?

/-- Go `len(OpCodes)`: the number of entries in the opcode table. -/
def opCodesLen : Nat := opTable.length

/-- Go `OpCodes[b].gasPrice` (modelled from the spec: every opcode charges 1). -/
def gasPrice (_ : Op) : Nat := 1

/-! ## Opcode bodies

Each case of the `switch` in `VM.Exec` becomes one body returning a
`BodyOut`: `err e s` stands for the Go idiom "push the error string, return
false" (the push itself is performed by `step`), `fin b s` for a direct
`return b`, `next s` for falling through to the next loop iteration, and
`crash` for a Go runtime panic. -/

/-- Outcome of one opcode body. -/
inductive BodyOut where
  | err (e : VmErr) (s : VMState)
  | fin (b : Bool) (s : VMState)
  | next (s : VMState)
  | crash

/-- Go `callStack.Peek()`: the topmost frame, with an error (and a zero frame)
when the call stack is empty. -/
def callPeek (s : VMState) : Frame × Option VmErr :=
  match s.callStack with
  | [] => (⟨0, []⟩, some .callStackEmpty)
  | f :: _ => (f, none)

/-- Go `MapFromBigInt` Go-style: zero map plus error on failure. -/
def mapFromBigIntE (v : Int) : List (List Nat × List Nat) × Option VmErr :=
  match mapFromBigInt v with
  | some m => (m, none)
  | none => ([], some .notAMap)

/-- Go `ArrayFromBigInt` Go-style: zero array plus error on failure. -/
def arrayFromBigIntE (v : Int) : List (List Nat) × Option VmErr :=
  match arrayFromBigInt v with
  | some a => (a, none)
  | none => ([], some .notAnArray)

/-- The argument-pop loop of `CALL`/`CALLIF`:
`for i := argsToLoad-1; i >= 0; i-- { frame.variables[i] = Pop() }`,
returning the accumulated bindings, the final state and the first pop error
(if the stack ran dry). -/
def popArgs : Nat → VMState → List (Nat × Int) →
    List (Nat × Int) × VMState × Option VmErr
  | 0, s, acc => (acc, s, none)
  | k + 1, s, acc =>
    match (popV s).2.2 with
    | some e => (acc, (popV s).2.1, some e)
    | none => popArgs k (popV s).2.1 ((k, (popV s).1) :: acc)

/-- Fuel-indexed worker for the `CALLDATA` walk (structural recursion; the
position advances by at least two per step, so fuel `td.length - i` is always
enough, and fuel `0` coincides with the loop's exit condition). -/
def calldataLoopAux : Nat → VMState → List Nat → Nat → BodyOut
  | 0, s, _, _ => .next s
  | fuel + 1, s, td, i =>
    if h : i < td.length then
      let length := td.get ⟨i, h⟩
      if td.length - i - 1 ≤ length then .err .calldataOOB s
      else
        let p := pushV s ((bytesToNat ((td.drop (i + 1)).take (length + 1)) : Int))
        match p.2 with
        | none => calldataLoopAux fuel p.1 td (i + length + 2)
        | some e => .err e p.1
    else .next s

/-- The `CALLDATA` walk over `ctx.GetTransactionData()`: at position `i` read
a length byte `n`, fail on truncation, push the following `n + 1` bytes as
one parameter, and advance by `n + 2`. -/
def calldataLoop (s : VMState) (td : List Nat) (i : Nat) : BodyOut :=
  calldataLoopAux (td.length - i) s td i

/-- The `Push` after an opcode body computes its result, with the `if err !=
nil { push error string; return false }` check of the source. -/
def pushChecked (s : VMState) (v : Int) : BodyOut :=
  match (pushV s v).2 with
  | none => .next (pushV s v).1
  | some e => .err e (pushV s v).1

/-- The shared shape of `ADD`, `SUB`, `MULT`: pop right then left, check the
two errors, push `left ⊕ right` with an error-checked push. -/
def bodyBin (s : VMState) (f : Int → Int → Int) : BodyOut :=
  let s1 := (popV s).2.1
  let s2 := (popV s1).2.1
  match firstErr [(popV s).2.2, (popV s1).2.2] with
  | some e => .err e s2
  | none => pushChecked s2 (f (popV s1).1 (popV s).1)

/-- The shared shape of `DIV` and `MOD`: as `bodyBin`, but failing with
*Division by Zero* when the right operand compares equal to zero. -/
def bodyDivMod (s : VMState) (f : Int → Int → Int) : BodyOut :=
  let s1 := (popV s).2.1
  let s2 := (popV s1).2.1
  match firstErr [(popV s).2.2, (popV s1).2.2] with
  | some e => .err e s2
  | none =>
    if (popV s).1 = 0 then .err .divByZero s2
    else pushChecked s2 (f (popV s1).1 (popV s).1)

/-- The shared shape of the six comparisons: pop right then left, push 1 or 0
(the source discards the push result here). -/
def bodyCmp (s : VMState) (p : Int → Int → Bool) : BodyOut :=
  let s1 := (popV s).2.1
  let s2 := (popV s1).2.1
  match firstErr [(popV s).2.2, (popV s1).2.2] with
  | some e => .err e s2
  | none => .next (pushV s2 (if p (popV s1).1 (popV s).1 then 1 else 0)).1

/-- The shared shape of `SHIFTL`/`SHIFTR`: one immediate byte for the shift
count, pop the operand, push the shifted value with an error-checked push. -/
def bodyShift (s : VMState) (f : Int → Nat → Int) : BodyOut :=
  let s1 := (fetch1 s).2.1
  let s2 := (popV s1).2.1
  match firstErr [(fetch1 s).2.2, (popV s1).2.2] with
  | some e => .err e s2
  | none => pushChecked s2 (f (popV s1).1 (fetch1 s).1)

/-- The `CALL` body after operand fetch and error check: bounds-check the
target, pop the arguments into the fresh frame, push it, jump. -/
def bodyCallCore (s : VMState) (ra : Nat) (n : Nat) : BodyOut :=
  if ra = 0 ∨ ra > s.code.length then .err .returnAddressOOB s
  else
    match (popArgs n s []).2.2 with
    | some e => .err e (popArgs n s []).2.1
    | none =>
      .next { (popArgs n s []).2.1 with
              callStack := ⟨s.pc, (popArgs n s []).1⟩ ::
                (popArgs n s []).2.1.callStack,
              pc := ra }

/-- The decode/dispatch `switch` of `VM.Exec`, one case per opcode, on a
state whose gas has already been charged. -/
def dispatch (op : Op) (s : VMState) : BodyOut :=
  match op with
  | .push =>
    let s1 := (fetch1 s).2.1
    let s2 := (fetchMany s1 ((fetch1 s).1 + 1)).2.1
    match firstErr [(fetch1 s).2.2, (fetchMany s1 ((fetch1 s).1 + 1)).2.2] with
    | some e => .err e s2
    | none =>
      pushChecked s2 ((bytesToNat (fetchMany s1 ((fetch1 s).1 + 1)).1 : Int))
  | .dup =>
    match (peekV s).2 with
    | some e => .err e s
    | none => pushChecked s (peekV s).1
  | .roll =>
    let s1 := (fetch1 s).2.1
    let index : Int := (stackLen s1 : Int) - (((fetch1 s).1 : Int) + 2)
    match (fetch1 s).2.2 with
    | some e => .err e s1
    | none =>
      if index ≠ -1 then
        if (fetch1 s).1 ≥ stackLen s1 then .err .rollOOB s1
        else
          match (popIndexAt s1 index.toNat).2.2 with
          | some e => .err e (popIndexAt s1 index.toNat).2.1
          | none =>
            pushChecked (popIndexAt s1 index.toNat).2.1 (popIndexAt s1 index.toNat).1
      else .next s1
  | .pop =>
    match (popV s).2.2 with
    | none => .next (popV s).2.1
    | some e => .err e (popV s).2.1
  | .add => bodyBin s (fun l r => l + r)
  | .sub => bodyBin s (fun l r => l - r)
  | .mult => bodyBin s (fun l r => l * r)
  | .div => bodyDivMod s (fun l r => Int.ediv l r)
  | .mod => bodyDivMod s (fun l r => Int.emod l r)
  | .neg =>
    match (popV s).2.2 with
    | some e => .err e (popV s).2.1
    | none => .next (pushV (popV s).2.1 (-(popV s).1)).1
  | .eq => bodyCmp s (fun l r => l = r)
  | .neq => bodyCmp s (fun l r => l ≠ r)
  | .lt => bodyCmp s (fun l r => l < r)
  | .gt => bodyCmp s (fun l r => l > r)
  | .lte => bodyCmp s (fun l r => l ≤ r)
  | .gte => bodyCmp s (fun l r => l ≥ r)
  | .shiftl => bodyShift s (fun v n => v * 2 ^ n)
  | .shiftr => bodyShift s (fun v n => Int.fdiv v (2 ^ n))
  | .nop =>
    match (fetch1 s).2.2 with
    | some e => .err e (fetch1 s).2.1
    | none => .next (fetch1 s).2.1
  | .jmp =>
    match (fetchMany s 2).2.2 with
    | some e => .err e (fetchMany s 2).2.1
    | none =>
      .next { (fetchMany s 2).2.1 with
              pc := (goInt64 ((bytesToNat (fetchMany s 2).1 : Int))).toNat }
  | .jmpif =>
    let s1 := (fetchMany s 2).2.1
    let s2 := (popV s1).2.1
    match firstErr [(fetchMany s 2).2.2, (popV s1).2.2] with
    | some e => .err e s2
    | none =>
      if goInt64 (popV s1).1 = 1 then
        .next { s2 with pc := (goInt64 ((bytesToNat (fetchMany s 2).1 : Int))).toNat }
      else .next s2
  | .call =>
    let s1 := (fetchMany s 2).2.1
    let s2 := (fetch1 s1).2.1
    match firstErr [(fetchMany s 2).2.2, (fetch1 s1).2.2] with
    | some e => .err e s2
    | none =>
      bodyCallCore s2 (goInt64 ((bytesToNat (fetchMany s 2).1 : Int))).toNat (fetch1 s1).1
  | .callif =>
    let s1 := (fetchMany s 2).2.1
    let s2 := (fetch1 s1).2.1
    let s3 := (popV s2).2.1
    match firstErr [(fetchMany s 2).2.2, (fetch1 s1).2.2, (popV s2).2.2] with
    | some e => .err e s3
    | none =>
      if goInt64 (popV s2).1 = 1 then
        bodyCallCore s3 (goInt64 ((bytesToNat (fetchMany s 2).1 : Int))).toNat (fetch1 s1).1
      else .next s3
  | .callext =>
    let s1 := (fetchMany s 32).2.1
    let s2 := (fetchMany s1 4).2.1
    let s3 := (fetch1 s2).2.1
    match firstErr [(fetchMany s 32).2.2, (fetchMany s1 4).2.2, (fetch1 s2).2.2] with
    | some e => .err e s3
    | none => .next s3
  | .ret =>
    match (callPeek s).2 with
    | some e => .err e s
    | none =>
      .next { s with callStack := s.callStack.tail,
                     pc := (callPeek s).1.returnAddress }
  | .size =>
    match (popV s).2.2 with
    | some e => .err e (popV s).2.1
    | none => pushChecked (popV s).2.1 ((elemSize (popV s).1 : Int))
  | .sstore =>
    let s1 := (fetch1 s).2.1
    let s2 := (popV s1).2.1
    match firstErr [(fetch1 s).2.2, (popV s1).2.2] with
    | some e => .err e s2
    | none =>
      if (fetch1 s).1 < s2.ctx.contractVariables.length then
        .next { s2 with
                ctx := { s2.ctx with
                         contractVariables :=
                           s2.ctx.contractVariables.set (fetch1 s).1 (popV s1).1 } }
      else .err .cvOOB s2
  | .store =>
    let s1 := (fetch1 s).2.1
    let s2 := (popV s1).2.1
    match firstErr [(fetch1 s).2.2, (popV s1).2.2] with
    | some e => .err e s2
    | none =>
      match (callPeek s2).2 with
      | some e => .err e s2
      | none =>
        .next { s2 with
                callStack := { (callPeek s2).1 with
                               vars := ((fetch1 s).1, (popV s1).1) ::
                                 (callPeek s2).1.vars } :: s2.callStack.tail }
  | .sload =>
    match (fetch1 s).2.2 with
    | some e => .err e (fetch1 s).2.1
    | none =>
      match (fetch1 s).2.1.ctx.contractVariables[(fetch1 s).1]? with
      | none => .err .cvOOB (fetch1 s).2.1
      | some v => pushChecked (fetch1 s).2.1 v
  | .load =>
    let s1 := (fetch1 s).2.1
    match firstErr [(fetch1 s).2.2, (callPeek s1).2] with
    | some e => .err e s1
    | none => pushChecked s1 ((callPeek s1).1.lookupVar (fetch1 s).1)
  | .address => pushChecked s ((bytesToNat s.ctx.address : Int))
  | .issuer => pushChecked s ((bytesToNat s.ctx.issuer : Int))
  | .caller => pushChecked s ((bytesToNat s.ctx.sender : Int))
  | .balance => pushChecked s ((bytesToNat (leBytes8 s.ctx.balance) : Int))
  | .callval => pushChecked s ((bytesToNat (leBytes8 s.ctx.amount) : Int))
  | .calldata => calldataLoop s s.ctx.transactionData 0
  | .newmap => pushChecked s (mapToBigInt [])
  | .mappush =>
    let s1 := (popV s).2.1
    let s2 := (popV s1).2.1
    let s3 := (popV s2).2.1
    let m := mapFromBigIntE (popV s2).1
    match firstErr [(popV s).2.2, (popV s1).2.2, (popV s2).2.2, m.2] with
    | some e => .err e s3
    | none =>
      pushChecked s3 (mapToBigInt (mapAppend m.1 (natToBytes (popV s).1.natAbs)
        (natToBytes (popV s1).1.natAbs)))
  | .mapgetval =>
    let s1 := (popV s).2.1
    let s2 := (popV s1).2.1
    let m := mapFromBigIntE (popV s1).1
    let v := match mapGetVal m.1 (natToBytes (popV s).1.natAbs) with
      | some v => (v, (none : Option VmErr))
      | none => ([], some VmErr.keyNotFound)
    match firstErr [(popV s).2.2, (popV s1).2.2, m.2, v.2] with
    | some e => .err e s2
    | none => pushChecked s2 ((bytesToNat v.1 : Int))
  | .mapsetval =>
    let s1 := (popV s).2.1
    let s2 := (popV s1).2.1
    let s3 := (popV s2).2.1
    let m := mapFromBigIntE (popV s2).1
    match firstErr [(popV s).2.2, (popV s1).2.2, (popV s2).2.2, m.2] with
    | some e => .err e s3
    | none =>
      pushChecked s3 (mapToBigInt (mapSetVal m.1 (natToBytes (popV s).1.natAbs)
        (natToBytes (popV s1).1.natAbs)))
  | .mapremove =>
    let s1 := (popV s).2.1
    let s2 := (popV s1).2.1
    let m := mapFromBigIntE (popV s1).1
    match firstErr [(popV s).2.2, (popV s1).2.2, m.2] with
    | some e => .err e s2
    | none =>
      pushChecked s2 (mapToBigInt (mapRemove m.1 (natToBytes (popV s).1.natAbs)))
  | .newarr => .next (pushV s (arrayToBigInt [])).1
  | .arrappend =>
    let s1 := (popV s).2.1
    let s2 := (popV s1).2.1
    match firstErr [(popV s).2.2, (popV s1).2.2] with
    | some e => .err e s2
    | none =>
      match (arrayFromBigIntE (popV s1).1).2 with
      | some e => .err e s2
      | none =>
        if (natToBytes (popV s).1.natAbs).length > 65535 then .err .arrAppendSize s2
        else
          pushChecked s2 (arrayToBigInt ((arrayFromBigIntE (popV s1).1).1 ++
            [natToBytes (popV s).1.natAbs]))
  | .arrinsert =>
    match (popV s).2.2 with
    | some e => .err e (popV s).2.1
    | none =>
      let s1 := (popV s).2.1
      let iBytes := natToBytes (popV s).1.natAbs
      if iBytes.length > 2 then .err .wrongIndexSize s1
      else
        match (popV s1).2.2 with
        | some e => .err e (popV s1).2.1
        | none =>
          let s2 := (popV s1).2.1
          match (popV s2).2.2 with
          | some e => .err e (popV s2).2.1
          | none =>
            let s3 := (popV s2).2.1
            match (arrayFromBigIntE (popV s2).1).2 with
            | some e => .err e s3
            | none =>
              let arr := (arrayFromBigIntE (popV s2).1).1
              match (byteArrayToUI16 iBytes).2 with
              | some e => .err e s3
              | none =>
                if (byteArrayToUI16 iBytes).1 ≥ arr.length then .err .indexOOBCap s3
                else
                  pushChecked s3 (arrayToBigInt (arrInsertAt arr
                    (byteArrayToUI16 iBytes).1 (natToBytes (popV s1).1.natAbs)))
  | .arrremove =>
    let s1 := (popV s).2.1
    let s2 := (fetchMany s1 2).2.1
    match firstErr [(popV s).2.2, (fetchMany s1 2).2.2] with
    | some e => .err e s2
    | none =>
      match (arrayFromBigIntE (popV s).1).2 with
      | some e => .err e s2
      | none =>
        match arrRemove (arrayFromBigIntE (popV s).1).1
            (byteArrayToUI16 (fetchMany s1 2).1).1 with
        | none => .err .arrIndexOOB s2
        | some arr2 => pushChecked s2 (arrayToBigInt arr2)
  | .arrat =>
    match (peekV s).2 with
    | some e => .err e s
    | none =>
      let s1 := (fetchMany s 2).2.1
      match (byteArrayToUI16 (fetchMany s 2).1).2 with
      | some _ =>
        -- the source pushes the *fetch* error's message here; when that
        -- error is nil, dereferencing it would panic
        match (fetchMany s 2).2.2 with
        | some e => .err e s1
        | none => .crash
      | none =>
        match (fetchMany s 2).2.2 with
        | some e => .err e s1
        | none =>
          match (arrayFromBigIntE (peekV s).1).2 with
          | some e => .err e s1
          | none =>
            match arrAt (arrayFromBigIntE (peekV s).1).1
                (byteArrayToUI16 (fetchMany s 2).1).1 with
            | none => .err .arrIndexOOB s1
            | some el => pushChecked s1 ((bytesToNat el : Int))
  | .sha3 =>
    match (popV s).2.2 with
    | some e => .err e (popV s).2.1
    | none =>
      pushChecked (popV s).2.1
        ((bytesToNat ((popV s).2.1.ctx.sha3hash (natToBytes (popV s).1.natAbs)) : Int))
  | .checksig =>
    let s1 := (popV s).2.1
    let s2 := (popV s1).2.1
    match firstErr [(popV s).2.2, (popV s1).2.2] with
    | some e => .err e s2
    | none =>
      if (natToBytes (popV s).1.natAbs).length ≠ 64 then .err .notValidAddress s2
      else if (natToBytes (popV s1).1.natAbs).length ≠ 32 then .err .notValidHash s2
      else
        .next (pushV s2 (if s2.ctx.ecdsaVerify (natToBytes (popV s).1.natAbs)
            (natToBytes (popV s1).1.natAbs) s2.ctx.sig1 then 1 else 0)).1
  | .errhalt => .fin false s
  | .halt => .fin true s

/-! ## The fetch–decode–dispatch loop -/

/-- Outcome of one loop iteration of `VM.Exec`. -/
inductive Step where
  | ret (b : Bool) (s : VMState)
  | cont (s : VMState)
  | crash

/-- Map a body outcome to a loop outcome, performing the error-string push of
the `err` case. -/
def mapOut : BodyOut → Step
  | .err e s => .ret false (errPush s (errMsg e))
  | .fin b s => .ret b s
  | .next s => .cont s
  | .crash => .crash

/-- One iteration of the loop in `VM.Exec`: fetch the opcode byte, reject a
byte beyond the table (`if len(OpCodes) < int(opCode)`), charge gas
(`OpCodes[int(opCode)].gasPrice` — indexing that panics when the byte equals
the table length), and dispatch. -/
def step (s : VMState) : Step :=
  match (fetch1 s).2.2 with
  | some e => .ret false (errPush (fetch1 s).2.1 (errMsg e))
  | none =>
    if opCodesLen < (fetch1 s).1 then
      .ret false (errPush (fetch1 s).2.1 "Not a valid opCode")
    else
      match decodeOp (fetch1 s).1 with
      | none => .crash
      | some op =>
        if (fetch1 s).2.1.fee < gasPrice op then
          .ret false (errPush (fetch1 s).2.1 "out of gas")
        else
          mapOut (dispatch op
            { (fetch1 s).2.1 with fee := (fetch1 s).2.1.fee - gasPrice op })

/-- Result of iterating `step` for a bounded number of iterations. -/
inductive RunRes where
  | ret (b : Bool) (s : VMState)
  | running (s : VMState)
  | crash

/-- Iterate `step` at most `fuel` times. -/
def iter : Nat → VMState → RunRes
  | 0, s => .running s
  | fuel + 1, s =>
    match step s with
    | .ret b s' => .ret b s'
    | .cont s' => iter fuel s'
    | .crash => .crash

/-- The machine built by `NewVM` just before the loop starts: `vm.code` is
`ctx.GetContract()`, the stacks are empty, and the loop-local fee counter is
`ctx.GetFee()`. -/
def initialState (ctx : Ctx) : VMState :=
  { code := ctx.contract, pc := 0, stack := [], callStack := [], ctx := ctx,
    fee := ctx.fee }

/-- Go `VM.Exec`: reject bytecode longer than 100000 bytes, then run the loop
(fuel-indexed; `fuel` bounds the number of loop iterations). -/
def execVM (fuel : Nat) (ctx : Ctx) : RunRes :=
  let s := initialState ctx
  if s.code.length > 100000 then .ret false (errPush s "Instruction set to big")
  else iter fuel s

/-- Go `VM.GetErrorMsg`: the decoded top of the evaluation stack, or the literal
`"Peek on empty Stack"` when the peek fails. -/
def getErrorMsg (s : VMState) : String :=
  match peekV s with
  | (_, some _) => "Peek on empty Stack"
  | (tos, none) => bigIntToString tos

/-! ## Shared concrete fixtures and small lemmas -/

/-- A minimal concrete host context, used to run the interpreter on concrete
bytecode in witnesses and counterexamples. -/
def testCtx (code : List Nat) (fee : Nat) : Ctx :=
  { contract := code, contractVariables := [], address := [], issuer := [],
    balance := 0, sender := [], amount := 0, transactionData := [], fee := fee,
    sig1 := [], ecdsaVerify := fun _ _ _ => false, sha3hash := fun _ => [] }

/-- With enough fuel, `clog2Aux` overshoots its argument: `n ≤ 2 ^ clog2Aux
fuel n`. -/
theorem clog2Aux_ge (fuel : Nat) : ∀ n, n ≤ fuel → n ≤ 2 ^ clog2Aux fuel n := by
  induction fuel with
  | zero => intro n h; simp [clog2Aux]; omega
  | succ fuel ih =>
    intro n h
    unfold clog2Aux
    by_cases h1 : n ≤ 1
    · simp [h1]
    · simp [h1]
      have hm := ih ((n + 1) / 2) (by omega)
      calc n ≤ 2 * ((n + 1) / 2) := by omega
        _ ≤ 2 * 2 ^ clog2Aux fuel ((n + 1) / 2) := by omega
        _ = 2 ^ (clog2Aux fuel ((n + 1) / 2) + 1) := (pow_succ' 2 _).symm

/-- The rounded-up power of two is at least its argument. -/
theorem nextPow2_ge (n : Nat) : n ≤ nextPow2 n := clog2Aux_ge n n le_rfl

/-- Every element charges at least 8 bytes of quota. -/
theorem elemSize_ge_eight (v : Int) : 8 ≤ elemSize v :=
  le_trans (le_max_right _ 8) (nextPow2_ge _)

@[simp] theorem memUsage_nil : memUsage [] = 0 := rfl

@[simp] theorem memUsage_cons (v : Int) (t : List Int) :
    memUsage (v :: t) = elemSize v + memUsage t := by
  simp [memUsage]

/-- A successfully decoded byte lies strictly inside the table. -/
theorem decodeOp_lt (b : Nat) (op : Op) (h : decodeOp b = some op) :
    b < opCodesLen := by
  have := List.getElem?_eq_some.mp h
  exact this.1

/-- Reduction of `step` on a state whose current byte decodes and whose fee
covers the gas price: charge gas and dispatch. -/
theorem step_dispatch (s : VMState) (b : Nat) (op : Op)
    (hcode : s.code[s.pc]? = some b) (hb : decodeOp b = some op)
    (hfee : gasPrice op ≤ s.fee) :
    step s = mapOut (dispatch op { s with pc := s.pc + 1, fee := s.fee - gasPrice op }) := by
  have hlt := decodeOp_lt b op hb
  have h1 : ¬ opCodesLen < b := by omega
  have h2 : ¬ s.fee < gasPrice op := Nat.not_lt.mpr hfee
  simp only [step, fetch1, hcode, hb, if_neg h1, if_neg h2]

/-- Reduction of `step` when the fee does not cover the gas price: push
*out of gas* and stop, without dispatching. -/
theorem step_outOfGas (s : VMState) (b : Nat) (op : Op)
    (hcode : s.code[s.pc]? = some b) (hb : decodeOp b = some op)
    (hfee : s.fee < gasPrice op) :
    step s = .ret false (errPush { s with pc := s.pc + 1 } "out of gas") := by
  have hlt := decodeOp_lt b op hb
  have h1 : ¬ opCodesLen < b := by omega
  simp only [step, fetch1, hcode, hb, if_neg h1, if_pos hfee]

/-! ## C10 — `GetErrorMsg` -/

/-- C10: for every VM state, `GetErrorMsg` returns the decoded string form of
the top evaluation-stack element when the stack is non-empty, and the literal
`"Peek on empty Stack"` when it is empty; it is a total function, so no
failure or panic is possible. -/
theorem c10_getErrorMsg (s : VMState) :
    getErrorMsg s = match s.stack with
      | [] => "Peek on empty Stack"
      | t :: _ => bigIntToString t := by
  cases h : s.stack <;> simp [getErrorMsg, peekV, h]

/-! ## C1 — invalid-opcode handling

The guard in `Exec` is `if len(OpCodes) < int(opCode)`: a byte strictly
greater than the table length is rejected with *Not a valid opCode*, but a
byte exactly equal to the table length slips past the guard and the
subsequent gas lookup `OpCodes[int(opCode)].gasPrice` indexes one past the
end of the table — a Go runtime panic escapes the interpreter. -/

/-- C1: executing the one-byte contract `[50]` (the byte equal to the opcode
table's length) panics in the gas lookup instead of pushing *Not a valid
opCode*, while the byte `51` (strictly beyond the table) is rejected as the
claim describes. -/
theorem c1_invalid_opcode :
    execVM 1 (testCtx [opCodesLen] 5) = RunRes.crash ∧
    execVM 1 (testCtx [opCodesLen + 1] 5) =
      RunRes.ret false
        { code := [opCodesLen + 1], pc := 1,
          stack := [strToBigInt "Not a valid opCode"], callStack := [],
          ctx := testCtx [opCodesLen + 1] 5, fee := 5 } :=
  ⟨rfl, rfl⟩

/-! ## C4 — division and modulo by zero -/

/-- C4: with at least two stack elements and a zero top (right) operand, the
`div` (byte 7) and `mod` (byte 8) opcodes push *Division by Zero* and return
false; the resulting state keeps the context — and hence the persistent
contract storage — unchanged, no `SetContractVariable` being issued. -/
theorem c4_divmod_zero (s : VMState) (b : Nat) (l : Int) (rest : List Int)
    (hop : b = 7 ∨ b = 8)
    (hcode : s.code[s.pc]? = some b)
    (hstack : s.stack = 0 :: l :: rest)
    (hfee : 1 ≤ s.fee)
    (hmem : memUsage s.stack ≤ maxMemory) :
    step s = .ret false
      { s with pc := s.pc + 1, fee := s.fee - 1,
               stack := strToBigInt "Division by Zero" :: rest } := by
  have hl := elemSize_ge_eight l
  have h16 : elemSize (strToBigInt "Division by Zero") = 16 := by decide
  have h0 : elemSize (0 : Int) = 8 := by decide
  rw [hstack, memUsage_cons, memUsage_cons, h0] at hmem
  have hroom : ¬ memUsage rest + elemSize (strToBigInt "Division by Zero") > maxMemory := by
    omega
  rcases hop with hop | hop <;> subst hop
  · rw [step_dispatch s 7 .div hcode (by decide) hfee]
    simp [dispatch, bodyDivMod, popV, hstack, firstErr, mapOut, errPush, pushV, hroom, errMsg, gasPrice]
  · rw [step_dispatch s 8 .mod hcode (by decide) hfee]
    simp [dispatch, bodyDivMod, popV, hstack, firstErr, mapOut, errPush, pushV, hroom, errMsg, gasPrice]

/-- The concrete state for the C4 witness: `div` about to execute on stack
`[0, 5]`. -/
def c4state : VMState :=
  { code := [7], pc := 0, stack := [0, 5], callStack := [], ctx := testCtx [7] 5,
    fee := 5 }

/-- C4 witness: evaluating the theorem on the concrete `c4state`. -/
theorem c4_witness :
    step c4state = .ret false
      { c4state with pc := 1, fee := 4,
                     stack := [strToBigInt "Division by Zero"] } :=
  c4_divmod_zero c4state 7 5 [] (Or.inl rfl) rfl rfl (by decide) (by decide)

/-! ## C8 — `checksig` operand validation -/

/-- C8: `checksig` (byte 49) pops the public-key value first and the hash
second; whenever the public key's byte representation is not exactly 64
bytes it halts with *Not a valid address* (in particular a 63-byte key,
where the message provably lands on top), and whenever the key is 64 bytes
but the hash's byte representation is not exactly 32 bytes — 31 bytes, 33
bytes, empty, any length other than 32 — it halts with *Not a valid hash*
on top of the stack; in each case `Exec` returns false. -/
theorem c8_checksig (s : VMState) (pk hsh : Int) (rest : List Int)
    (hcode : s.code[s.pc]? = some 49)
    (hstack : s.stack = pk :: hsh :: rest)
    (hfee : 1 ≤ s.fee)
    (hmem : memUsage s.stack ≤ maxMemory) :
    ((natToBytes pk.natAbs).length ≠ 64 →
      step s = .ret false
        (errPush { s with pc := s.pc + 1, fee := s.fee - 1, stack := rest }
          "Not a valid address")) ∧
    ((natToBytes pk.natAbs).length = 63 →
      step s = .ret false
        { s with pc := s.pc + 1, fee := s.fee - 1,
                 stack := strToBigInt "Not a valid address" :: rest }) ∧
    ((natToBytes pk.natAbs).length = 64 → (natToBytes hsh.natAbs).length ≠ 32 →
      step s = .ret false
        { s with pc := s.pc + 1, fee := s.fee - 1,
                 stack := strToBigInt "Not a valid hash" :: rest }) := by
  rw [hstack, memUsage_cons, memUsage_cons] at hmem
  refine ⟨fun hne => ?_, fun h63 => ?_, fun h64 hne32 => ?_⟩
  · rw [step_dispatch s 49 .checksig hcode (by decide) hfee]
    simp [dispatch, popV, hstack, firstErr, mapOut, errMsg, hne, gasPrice]
  · have hpk : elemSize pk = 64 := by unfold elemSize; rw [h63]; decide
    have hmsg : elemSize (strToBigInt "Not a valid address") = 32 := by decide
    have hh := elemSize_ge_eight hsh
    rw [step_dispatch s 49 .checksig hcode (by decide) hfee]
    have hne : (natToBytes pk.natAbs).length ≠ 64 := by omega
    simp [dispatch, popV, hstack, firstErr, mapOut, errMsg, hne, gasPrice,
          errPush, pushV, hmsg, show ¬ memUsage rest + 32 > maxMemory by omega]
  · have hpk : elemSize pk = 64 := by unfold elemSize; rw [h64]; decide
    have hh := elemSize_ge_eight hsh
    have hmsg : elemSize (strToBigInt "Not a valid hash") = 16 := by decide
    rw [step_dispatch s 49 .checksig hcode (by decide) hfee]
    simp [dispatch, popV, hstack, firstErr, mapOut, errMsg, h64, hne32, gasPrice,
          errPush, pushV, hmsg, show ¬ memUsage rest + 16 > maxMemory by omega]

/-- The concrete state for the C8 witness's first branch: `checksig` with a
63-byte public key (`256^62`) above a 32-byte hash (`256^31`). -/
def c8state : VMState :=
  { code := [49], pc := 0, stack := [(256 : Int) ^ 62, (256 : Int) ^ 31],
    callStack := [], ctx := testCtx [49] 5, fee := 5 }

/-- The concrete state for the C8 witness's second branch: `checksig` with a
64-byte public key (`256^63`) above a 31-byte hash (`256^30`). -/
def c8state2 : VMState :=
  { code := [49], pc := 0, stack := [(256 : Int) ^ 63, (256 : Int) ^ 30],
    callStack := [], ctx := testCtx [49] 5, fee := 5 }

/-- C8 witness: evaluating the theorem's 63-byte-key branch on `c8state` and
its general wrong-hash-length branch on `c8state2` (a 31-byte hash). -/
theorem c8_witness :
    (step c8state = .ret false
      { c8state with pc := 1, fee := 4,
                     stack := [strToBigInt "Not a valid address"] }) ∧
    (step c8state2 = .ret false
      { c8state2 with pc := 1, fee := 4,
                      stack := [strToBigInt "Not a valid hash"] }) :=
  ⟨(c8_checksig c8state ((256 : Int) ^ 62) ((256 : Int) ^ 31) [] rfl rfl
      (by decide) (by decide)).2.1 (by decide),
   (c8_checksig c8state2 ((256 : Int) ^ 63) ((256 : Int) ^ 30) [] rfl rfl
      (by decide) (by decide)).2.2 (by decide) (by decide)⟩

/-! ## C5 — `jmpif` condition

The source compares `right.Int64()` — the 64-bit truncation of the popped
value — against 1, so every value congruent to 1 modulo `2^64` jumps, not
only the integer 1. -/

/-- Go `Int64()` returns 1 exactly on the values congruent to 1 modulo `2^64`. -/
theorem goInt64_eq_one (r : Int) : goInt64 r = 1 ↔ r % (2 ^ 64 : Int) = 1 := by
  simp only [goInt64]
  split <;> split <;> omega

/-- Go `Int64()` is the identity on small non-negative values. -/
theorem goInt64_small (x : Int) (h0 : 0 ≤ x) (h1 : x < 2 ^ 63) : goInt64 x = x := by
  simp only [goInt64]
  split <;> split <;> omega

/-- C5 counterexample: pushing `2^64 + 1` (which is not 1) and executing
`jmpif 15` *jumps* over the `errhalt` at 14 to the `halt` at 15, so `Exec`
returns true — under the claim the value should fall through into `errhalt`
and return false. -/
theorem c5_counterexample :
    execVM 4 (testCtx [0, 8, 1, 0, 0, 0, 0, 0, 0, 0, 1, 20, 0, 15, 26, 25] 10) =
      RunRes.ret true
        { code := [0, 8, 1, 0, 0, 0, 0, 0, 0, 0, 1, 20, 0, 15, 26, 25], pc := 16,
          stack := [], callStack := [],
          ctx := testCtx [0, 8, 1, 0, 0, 0, 0, 0, 0, 0, 1, 20, 0, 15, 26, 25] 10,
          fee := 7 } := rfl

/-- C5 (amended): `jmpif` (byte 20) with 2-byte immediate target `t1 ‖ t2`
pops `r` and sets `pc` to the target exactly when `r ≡ 1 (mod 2^64)` — the
`Int64()` truncation of `r` equals 1 — and otherwise falls through to the
next instruction; for `r` within the `int64` range this is exactly `r = 1`. -/
theorem c5_jmpif (s : VMState) (t1 t2 : Nat) (r : Int) (rest : List Int)
    (hcode : s.code[s.pc]? = some 20)
    (hlen : s.code.length - (s.pc + 1) > 2)
    (hops : (s.code.drop (s.pc + 1)).take 2 = [t1, t2])
    (h1 : t1 < 256) (h2 : t2 < 256)
    (hstack : s.stack = r :: rest)
    (hfee : 1 ≤ s.fee) :
    step s = .cont
      { s with pc := if r % (2 ^ 64 : Int) = 1 then t1 * 256 + t2 else s.pc + 3,
               fee := s.fee - 1, stack := rest } := by
  rw [step_dispatch s 20 .jmpif hcode (by decide) hfee]
  have hsm : goInt64 ((t1 : Int) * 256 + (t2 : Int)) = (t1 : Int) * 256 + t2 :=
    goInt64_small _ (by positivity) (by push_cast; omega)
  have htn : ((t1 : Int) * 256 + (t2 : Int)).toNat = t1 * 256 + t2 := by omega
  by_cases hc : r % (18446744073709551616 : Int) = 1
  · simp [dispatch, fetchMany, popV, hstack, firstErr, mapOut, hlen, hops,
          bytesToNat, hsm, htn, goInt64_eq_one, hc, gasPrice]
  · simp [dispatch, fetchMany, popV, hstack, firstErr, mapOut, hlen, hops,
          bytesToNat, goInt64_eq_one, hc, gasPrice]

/-- The concrete state for the C5 witness: `jmpif 2` with 1 on the stack. -/
def c5state : VMState :=
  { code := [20, 0, 2, 25], pc := 0, stack := [1], callStack := [],
    ctx := testCtx [20, 0, 2, 25] 5, fee := 5 }

/-- C5 witness: evaluating the amended theorem on `c5state` (condition 1, so
the jump to target 2 is taken). -/
theorem c5_witness :
    step c5state = .cont { c5state with pc := 2, fee := 4, stack := [] } := by
  have hone : ((1 : Int) % (2 ^ 64 : Int)) = 1 := by decide
  have h := c5_jmpif c5state 0 2 1 [] rfl (by decide) (by decide) (by decide)
    (by decide) rfl (by decide)
  simpa [hone] using h

/-! ## C6 — `push` operand fetch

`fetchMany(k)` succeeds only when `len(code) - pc > k`, i.e. at least `k + 1`
bytes remain, so a `push` whose `n + 1` magnitude bytes end exactly at the
last code byte fails with *instructionSet out of bounds*. -/

/-- C6 counterexample: in the contract `[0, 0, 7]` the push's single
magnitude byte `7` ends precisely at the last byte of the code; the claim
says the push succeeds, but `Exec` halts with *instructionSet out of
bounds*. -/
theorem c6_counterexample :
    execVM 1 (testCtx [0, 0, 7] 5) = RunRes.ret false
      { code := [0, 0, 7], pc := 2,
        stack := [strToBigInt "instructionSet out of bounds"],
        callStack := [], ctx := testCtx [0, 0, 7] 5, fee := 4 } := rfl

/-- C6 (amended): `push` (byte 0) reads the immediate count byte `n` and then
`n + 1` magnitude bytes, decoded as an unsigned big-endian big integer and
pushed; it succeeds exactly when *more than* `n + 1` bytes remain after the
count byte (at least `n + 2`), and halts with *instructionSet out of bounds*
when at most `n + 1` remain — in particular when the magnitude bytes would
end precisely at the last byte of the code. -/
theorem c6_push (s : VMState) (n : Nat)
    (hcode : s.code[s.pc]? = some 0)
    (hn : s.code[s.pc + 1]? = some n)
    (hfee : 1 ≤ s.fee)
    (hmemVal : memUsage s.stack +
      elemSize ((bytesToNat ((s.code.drop (s.pc + 2)).take (n + 1)) : Int)) ≤ maxMemory)
    (hmemErr : memUsage s.stack + 32 ≤ maxMemory) :
    (s.code.length - (s.pc + 2) > n + 1 →
      step s = .cont
        { s with pc := s.pc + n + 3, fee := s.fee - 1,
                 stack := (bytesToNat ((s.code.drop (s.pc + 2)).take (n + 1)) : Int)
                   :: s.stack }) ∧
    (s.code.length - (s.pc + 2) ≤ n + 1 →
      step s = .ret false
        { s with pc := s.pc + 2, fee := s.fee - 1,
                 stack := strToBigInt "instructionSet out of bounds" :: s.stack }) := by
  have hmsg : elemSize (strToBigInt "instructionSet out of bounds") = 32 := by decide
  rw [show (0 : Nat) = 0 from rfl] at hcode
  constructor
  · intro hroom
    rw [step_dispatch s 0 .push hcode (by decide) hfee]
    simp [dispatch, fetch1, fetchMany, hn, firstErr, mapOut, pushChecked, pushV,
          gasPrice,
          show ¬ memUsage s.stack +
            elemSize ((bytesToNat ((s.code.drop (s.pc + 2)).take (n + 1)) : Int)) >
              maxMemory by omega, hroom]
    omega
  · intro hfail
    rw [step_dispatch s 0 .push hcode (by decide) hfee]
    simp [dispatch, fetch1, fetchMany, hn, firstErr, mapOut, pushChecked,
          errPush, pushV, gasPrice, errMsg, hmsg,
          show ¬ s.code.length - (s.pc + 1 + 1) > n + 1 by omega,
          show ¬ memUsage s.stack + 32 > maxMemory by omega]

/-- The concrete state for the C6 witness: `push` with count byte 1 and
magnitude bytes `[7, 8]`, with one further byte after them. -/
def c6state : VMState :=
  { code := [0, 1, 7, 8, 25], pc := 0, stack := [], callStack := [],
    ctx := testCtx [0, 1, 7, 8, 25] 5, fee := 5 }

/-- C6 witness: evaluating the amended theorem's success branch on
`c6state` (the two magnitude bytes decode to `7 * 256 + 8 = 1800`). -/
theorem c6_witness :
    step c6state = .cont { c6state with pc := 4, fee := 4, stack := [(1800 : Int)] } := by
  have h := (c6_push c6state 1 rfl rfl (by decide) (by decide) (by decide)).1 (by decide)
  simpa using h

/-! ## C9 — `arrat` peeks the array -/

/-- C9: `arrat` (byte 46) with 2-byte immediate index *peeks* the array word
(does not pop it) and pushes the selected element: afterwards the array word
is still on the stack directly beneath the pushed element, and the stack is
one element deeper. -/
theorem c9_arrat (s : VMState) (a : Int) (rest : List Int)
    (arr : List (List Nat)) (el : List Nat)
    (hcode : s.code[s.pc]? = some 46)
    (hlen : s.code.length - (s.pc + 1) > 2)
    (hstack : s.stack = a :: rest)
    (harr : arrayFromBigInt a = some arr)
    (hel : arrAt arr (bytesToNat ((s.code.drop (s.pc + 1)).take 2)) = some el)
    (hfee : 1 ≤ s.fee)
    (hmem : memUsage s.stack + elemSize ((bytesToNat el : Int)) ≤ maxMemory) :
    step s = .cont
      { s with pc := s.pc + 3, fee := s.fee - 1,
               stack := (bytesToNat el : Int) :: a :: rest } := by
  rw [step_dispatch s 46 .arrat hcode (by decide) hfee]
  have hba : ((s.code.drop (s.pc + 1)).take 2).length ≤ 2 := by
    simpa using List.length_take_le 2 _
  rw [hstack, memUsage_cons] at hmem
  have hroom : ¬ maxMemory < elemSize a + memUsage rest + elemSize ((bytesToNat el : Int)) := by
    omega
  simp [dispatch, peekV, hstack, fetchMany, hlen, byteArrayToUI16,
        show ¬ ((s.code.drop (s.pc + 1)).take 2).length > 2 by omega,
        arrayFromBigIntE, harr, hel, pushChecked, pushV, mapOut, gasPrice, hroom]

/-- The concrete state for the C9 witness: `arrat 0` on the one-element array
`[0x02, 0x00, 0x01, 0x07]` (wire value 33554695). -/
def c9state : VMState :=
  { code := [46, 0, 0, 25], pc := 0, stack := [(33554695 : Int)], callStack := [],
    ctx := testCtx [46, 0, 0, 25] 5, fee := 5 }

/-- C9 witness: evaluating the theorem on `c9state` — the element `7` lands
on top, the array word stays beneath it. -/
theorem c9_witness :
    step c9state = .cont
      { c9state with pc := 3, fee := 4, stack := [(7 : Int), (33554695 : Int)] } := by
  have h := c9_arrat c9state 33554695 [] [[7]] [7] rfl (by decide) rfl (by decide)
    (by decide) (by decide) (by decide)
  simpa using h

/-! ## C7 — `call` -/

/-- The accumulation of the `CALL` argument-pop loop on an argument list
(top of stack first): `argVars [v0, …, v(n-1)] acc` binds index `n-1` to
`v0`, `n-2` to `v1`, …, `0` to `v(n-1)`, in front of `acc`. -/
def argVars : List Int → List (Nat × Int) → List (Nat × Int)
  | [], acc => acc
  | v :: front, acc => argVars front ((front.length, v) :: acc)

/-- Go `popArgs` on a stack that starts with its `n` arguments pops exactly
those and accumulates them as `argVars` does. -/
theorem popArgs_spec (front : List Int) :
    ∀ (s : VMState) (acc : List (Nat × Int)) (rest : List Int),
      s.stack = front ++ rest →
      popArgs front.length s acc =
        (argVars front acc, { s with stack := rest }, none) := by
  induction front with
  | nil =>
    intro s acc rest h
    simp only [List.nil_append] at h
    simp [popArgs, argVars, ← h]
  | cons v front ih =>
    intro s acc rest h
    simp only [List.length_cons, popArgs, popV, h, List.cons_append]
    exact ih { s with stack := front ++ rest } ((front.length, v) :: acc) rest rfl

/-- Lookup in the accumulated argument bindings: index `i < n` holds the
`(n-1-i)`-th argument counted from the top of the stack. -/
theorem argVars_lookup (front : List Int) :
    ∀ (acc : List (Nat × Int)) (i : Nat),
      (argVars front acc).lookup i =
        if i < front.length then front[front.length - 1 - i]? else acc.lookup i := by
  induction front with
  | nil => intro acc i; simp [argVars]
  | cons v front ih =>
    intro acc i
    simp only [argVars, List.length_cons]
    rw [ih]
    by_cases hi : i < front.length
    · rw [if_pos hi, if_pos (by omega)]
      have : front.length + 1 - 1 - i = (front.length - 1 - i) + 1 := by omega
      rw [this]
      simp
    · rw [if_neg hi]
      by_cases he : i = front.length
      · subst he
        rw [if_pos (by omega)]
        simp [List.lookup]
      · rw [if_neg (by omega)]
        have : (i == front.length) = false := by simp [he]
        simp [List.lookup, this]

/-- C7: `call` (byte 21) reads a 2-byte target `t1 ‖ t2` and a 1-byte
argument count `n`.  A target of 0 or beyond `len(code)` halts with
*ReturnAddress out of bounds*; otherwise the `n` topmost values are popped
into the fresh frame's variables — index `i` receiving the `(n-1-i)`-th
popped value, i.e. indices `n-1` down to `0` in pop order — the frame's
return address is the pc just past the call's three operand bytes, the frame
is pushed onto the call stack, and control jumps to the target. -/
theorem c7_call (s : VMState) (t1 t2 n : Nat) (front rest : List Int)
    (hcode : s.code[s.pc]? = some 21)
    (hlen : s.code.length - (s.pc + 1) > 2)
    (hops : (s.code.drop (s.pc + 1)).take 2 = [t1, t2])
    (h1 : t1 < 256) (h2 : t2 < 256)
    (hn : s.code[s.pc + 3]? = some n)
    (hstack : s.stack = front ++ rest) (hfront : front.length = n)
    (hfee : 1 ≤ s.fee)
    (hmem : memUsage s.stack + 32 ≤ maxMemory) :
    (t1 * 256 + t2 = 0 ∨ t1 * 256 + t2 > s.code.length →
      step s = .ret false
        { s with pc := s.pc + 4, fee := s.fee - 1,
                 stack := strToBigInt "ReturnAddress out of bounds" :: s.stack }) ∧
    (0 < t1 * 256 + t2 → t1 * 256 + t2 ≤ s.code.length →
      step s = .cont
        { s with pc := t1 * 256 + t2, fee := s.fee - 1, stack := rest,
                 callStack := { returnAddress := s.pc + 4,
                                vars := argVars front [] } :: s.callStack } ∧
      ∀ i, i < n →
        Frame.lookupVar { returnAddress := s.pc + 4, vars := argVars front [] } i
          = (front[n - 1 - i]?).getD 0) := by
  have hsm : goInt64 ((t1 : Int) * 256 + (t2 : Int)) = (t1 : Int) * 256 + t2 :=
    goInt64_small _ (by positivity) (by push_cast; omega)
  have htn : ((t1 : Int) * 256 + (t2 : Int)).toNat = t1 * 256 + t2 := by omega
  have hmsg : elemSize (strToBigInt "ReturnAddress out of bounds") = 32 := by decide
  constructor
  · intro hbad
    rw [step_dispatch s 21 .call hcode (by decide) hfee]
    have hguard : t1 = 0 ∧ t2 = 0 ∨ s.code.length < t1 * 256 + t2 := by omega
    have hroom : ¬ maxMemory < memUsage s.stack + 32 := by omega
    simp [dispatch, fetchMany, fetch1, hlen, hops, hn, firstErr, bytesToNat,
          hsm, htn, bodyCallCore, mapOut, errPush, pushV, errMsg, hmsg, gasPrice,
          hguard, hroom]
  · intro hpos hle
    rw [step_dispatch s 21 .call hcode (by decide) hfee]
    have hguard : ¬ (t1 = 0 ∧ t2 = 0 ∨ s.code.length < t1 * 256 + t2) := by omega
    have h124 : s.pc + 1 + 2 + 1 = s.pc + 4 := by omega
    have hpop := popArgs_spec front
      { s with pc := s.pc + 4, fee := s.fee - 1 } [] rest (by simp [hstack])
    rw [hfront] at hpop
    refine ⟨?_, ?_⟩
    · simp [dispatch, fetchMany, fetch1, hlen, hops, hn, firstErr, bytesToNat,
            hsm, htn, bodyCallCore, mapOut, gasPrice, hguard, h124, hpop]
    · intro i hi
      rw [Frame.lookupVar]
      rw [argVars_lookup front [] i]
      rw [if_pos (by omega)]
      rw [hfront]

/-- The concrete state for the C7 witness: `call 4 1` with the single
argument 5 on the stack; the target 4 is the `halt` byte. -/
def c7state : VMState :=
  { code := [21, 0, 4, 1, 25], pc := 0, stack := [5], callStack := [],
    ctx := testCtx [21, 0, 4, 1, 25] 5, fee := 5 }

/-- C7 witness: evaluating the theorem's in-bounds branch on `c7state` — the
frame gets return address 4 and variable 0 bound to the popped 5. -/
theorem c7_witness :
    step c7state = .cont
      { c7state with pc := 4, fee := 4, stack := [],
                     callStack := [{ returnAddress := 4, vars := [(0, 5)] }] } := by
  have h := ((c7_call c7state 0 4 1 [5] [] rfl (by decide) (by decide) (by decide)
    (by decide) rfl rfl rfl (by decide) (by decide)).2 (by decide) (by decide)).1
  simpa [argVars] using h

/-! ## C3 — gas accounting

The opcode bodies never touch the fee counter: all fee movement happens in
`step`, which checks `fee < gasPrice` before dispatching and subtracts the
gas price otherwise. -/

/-- The fee recorded in a body outcome equals the given value (vacuously true
for a crash, which carries no state). -/
def outFee : BodyOut → Nat → Prop
  | .err _ s, n => s.fee = n
  | .fin _ s, n => s.fee = n
  | .next s, n => s.fee = n
  | .crash, _ => True

theorem outFee_congr {r : BodyOut} {n m : Nat} (h : n = m) (hf : outFee r n) :
    outFee r m := h ▸ hf

@[simp] theorem popV_fee (s : VMState) : (popV s).2.1.fee = s.fee := by
  cases h : s.stack <;> simp [popV, h]

@[simp] theorem pushV_fee (s : VMState) (v : Int) : (pushV s v).1.fee = s.fee := by
  unfold pushV; split <;> rfl

@[simp] theorem fetch1_fee (s : VMState) : (fetch1 s).2.1.fee = s.fee := by
  unfold fetch1; split <;> rfl

@[simp] theorem fetchMany_fee (s : VMState) (k : Nat) :
    (fetchMany s k).2.1.fee = s.fee := by
  unfold fetchMany; split <;> rfl

@[simp] theorem popIndexAt_fee (s : VMState) (i : Nat) :
    (popIndexAt s i).2.1.fee = s.fee := by
  simp only [popIndexAt]; split <;> rfl

@[simp] theorem errPush_fee (s : VMState) (m : String) :
    (errPush s m).fee = s.fee := by
  unfold errPush pushV; split <;> rfl

@[simp] theorem popArgs_fee (k : Nat) :
    ∀ (s : VMState) (acc : List (Nat × Int)), (popArgs k s acc).2.1.fee = s.fee := by
  induction k with
  | zero => intro s acc; rfl
  | succ k ih => intro s acc; unfold popArgs; split <;> simp [ih]

theorem calldataLoopAux_fee (fuel : Nat) :
    ∀ (s : VMState) (td : List Nat) (i : Nat),
      outFee (calldataLoopAux fuel s td i) s.fee := by
  induction fuel with
  | zero => intro s td i; simp [calldataLoopAux, outFee]
  | succ fuel ih =>
    intro s td i
    simp only [calldataLoopAux]
    split
    · split
      · simp [outFee]
      · split
        · exact outFee_congr (pushV_fee _ _) (ih _ td _)
        · simp [outFee]
    · simp [outFee]

theorem bodyCallCore_fee (s : VMState) (ra n : Nat) :
    outFee (bodyCallCore s ra n) s.fee := by
  unfold bodyCallCore
  split
  · simp [outFee]
  · split <;> simp [outFee]

theorem bodyBin_fee (s : VMState) (f : Int → Int → Int) :
    outFee (bodyBin s f) s.fee := by
  simp only [bodyBin, pushChecked]
  repeat' split
  all_goals simp [outFee]

theorem bodyDivMod_fee (s : VMState) (f : Int → Int → Int) :
    outFee (bodyDivMod s f) s.fee := by
  simp only [bodyDivMod, pushChecked]
  repeat' split
  all_goals simp [outFee]

theorem bodyCmp_fee (s : VMState) (p : Int → Int → Bool) :
    outFee (bodyCmp s p) s.fee := by
  simp only [bodyCmp]
  repeat' split
  all_goals simp [outFee]

theorem bodyShift_fee (s : VMState) (f : Int → Nat → Int) :
    outFee (bodyShift s f) s.fee := by
  simp only [bodyShift, pushChecked]
  repeat' split
  all_goals simp [outFee]

set_option maxHeartbeats 2000000 in
/-- No opcode body changes the fee counter. -/
theorem dispatch_fee (op : Op) (s : VMState) : outFee (dispatch op s) s.fee := by
  cases op
  case add => simp only [dispatch]; exact bodyBin_fee _ _
  case sub => simp only [dispatch]; exact bodyBin_fee _ _
  case mult => simp only [dispatch]; exact bodyBin_fee _ _
  case div => simp only [dispatch]; exact bodyDivMod_fee _ _
  case mod => simp only [dispatch]; exact bodyDivMod_fee _ _
  case eq => simp only [dispatch]; exact bodyCmp_fee _ _
  case neq => simp only [dispatch]; exact bodyCmp_fee _ _
  case lt => simp only [dispatch]; exact bodyCmp_fee _ _
  case gt => simp only [dispatch]; exact bodyCmp_fee _ _
  case lte => simp only [dispatch]; exact bodyCmp_fee _ _
  case gte => simp only [dispatch]; exact bodyCmp_fee _ _
  case shiftl => simp only [dispatch]; exact bodyShift_fee _ _
  case shiftr => simp only [dispatch]; exact bodyShift_fee _ _
  case calldata =>
    simp only [dispatch, calldataLoop]
    exact calldataLoopAux_fee _ _ _ _
  all_goals
    simp only [dispatch, pushChecked]
  all_goals
    repeat' split
  all_goals
    first
      | exact outFee_congr (by simp) (bodyCallCore_fee _ _ _)
      | simp [outFee]

/-- The gas price of the opcode about to be fetched at `s.pc` (0 when there
is no valid opcode there — such a state cannot `cont`). -/
def gasAt (s : VMState) : Nat :=
  match s.code[s.pc]? with
  | some b =>
    match decodeOp b with
    | some op => gasPrice op
    | none => 0
  | none => 0

/-- The gas prices of the opcodes dispatched along the first `k` continuing
iterations from `s`. -/
def gasTrace : Nat → VMState → List Nat
  | 0, _ => []
  | k + 1, s =>
    match step s with
    | .cont s' => gasAt s :: gasTrace k s'
    | _ => []

theorem mapOut_cont (r : BodyOut) (s' : VMState) (h : mapOut r = .cont s') :
    r = .next s' := by
  cases r <;> simp [mapOut] at h <;> simp [h]

/-- A continuing step pays exactly the dispatched opcode's gas price. -/
theorem step_cont_fee (s s' : VMState) (h : step s = .cont s') :
    s'.fee + gasAt s = s.fee := by
  unfold step at h
  cases hcb : s.code[s.pc]? with
  | none => simp [fetch1, hcb] at h
  | some b =>
    simp only [fetch1, hcb] at h
    by_cases hlt : opCodesLen < b
    · simp [hlt] at h
    · simp only [if_neg hlt] at h
      cases hdec : decodeOp b with
      | none => simp [hdec] at h
      | some op =>
        simp only [hdec] at h
        by_cases hfee : s.fee < gasPrice op
        · simp [if_pos hfee] at h
        · simp only [if_neg hfee] at h
          have h2 := mapOut_cont _ _ h
          have h3 := dispatch_fee op
            { s with pc := s.pc + 1, fee := s.fee - gasPrice op }
          rw [h2] at h3
          simp only [outFee] at h3
          have h4 : gasAt s = gasPrice op := by simp [gasAt, hcb, hdec]
          omega

/-- Along any prefix of continuing iterations, the fee drops by exactly the
sum of the dispatched gas prices. -/
theorem iter_fee (k : Nat) : ∀ (s s' : VMState), iter k s = .running s' →
    s'.fee + (gasTrace k s).sum = s.fee := by
  induction k with
  | zero =>
    intro s s' h
    simp [iter] at h
    simp [gasTrace, ← h]
  | succ k ih =>
    intro s s' h
    unfold iter at h
    cases hs : step s with
    | ret b s2 => rw [hs] at h; simp at h
    | crash => rw [hs] at h; simp at h
    | cont s2 =>
      rw [hs] at h
      have h1 := step_cont_fee s s2 hs
      have h2 := ih s2 s' h
      simp only [gasTrace, hs, List.sum_cons]
      omega

/-- C3: before dispatching, `Exec` checks the remaining fee against the
opcode's gas price — if it is smaller it pushes *out of gas* and returns
false without dispatching the opcode (first conjunct); otherwise it subtracts
the gas price, so after any prefix of `k` continuing iterations from the
initial state the remaining fee plus the sum of the dispatched opcodes' gas
prices equals the initial fee `GetFee()` — an exact `Nat` equation, so the
counter never underflows (second conjunct). -/
theorem c3_gas (ctx : Ctx) :
    (∀ (s : VMState) (b : Nat) (op : Op),
      s.code[s.pc]? = some b → decodeOp b = some op → s.fee < gasPrice op →
        step s = .ret false (errPush { s with pc := s.pc + 1 } "out of gas")) ∧
    ∀ (k : Nat) (s' : VMState), iter k (initialState ctx) = .running s' →
      s'.fee + (gasTrace k (initialState ctx)).sum = ctx.fee := by
  refine ⟨fun s b op hcode hdec hfee => step_outOfGas s b op hcode hdec hfee, ?_⟩
  intro k s' h
  simpa [initialState] using iter_fee k (initialState ctx) s' h

/-- The state after two `nop`s from a fresh machine with fee 10. -/
def c3state : VMState :=
  { code := [18, 0, 18, 0, 25], pc := 4, stack := [], callStack := [],
    ctx := testCtx [18, 0, 18, 0, 25] 10, fee := 8 }

/-- C3 witness: after the two dispatched `nop`s the fee plus the dispatched
gas equals the initial fee, and an `add` with fee 0 halts *out of gas*. -/
theorem c3_witness :
    (iter 2 (initialState (testCtx [18, 0, 18, 0, 25] 10)) = RunRes.running c3state ∧
      c3state.fee + (gasTrace 2 (initialState (testCtx [18, 0, 18, 0, 25] 10))).sum = 10) ∧
    step (initialState (testCtx [4] 0)) =
      .ret false (errPush { initialState (testCtx [4] 0) with pc := 1 } "out of gas") :=
  ⟨⟨rfl, (c3_gas (testCtx [18, 0, 18, 0, 25] 10)).2 2 c3state rfl⟩,
   (c3_gas (testCtx [4] 0)).1 (initialState (testCtx [4] 0)) 4 .add rfl rfl
     (by decide)⟩

/-! ## C2 — error reporting through the stack

Every `return false` in the interpreter except `errhalt`'s goes through the
push of a fixed ASCII error string; that push itself can be rejected by the
stack's memory quota, and `errhalt` pushes nothing at all. -/

/-- The stack is non-empty and its top decodes to a non-empty ASCII string. -/
def ErrStrTop (s : VMState) : Prop :=
  ∃ t rest, s.stack = t :: rest ∧ bigIntToString t ≠ "" ∧
    ∀ c ∈ (bigIntToString t).data, c.toNat < 128

/-- A well-behaved error message: decodes back from its big-integer form,
non-empty, ASCII, and charged at most 64 bytes of stack quota. -/
def msgOKP (msg : String) : Prop :=
  bigIntToString (strToBigInt msg) = msg ∧ msg ≠ "" ∧
    (∀ c ∈ msg.data, c.toNat < 128) ∧ elemSize (strToBigInt msg) ≤ 64

/-- Every interpreter error message is well-behaved. -/
theorem msgOK_errMsg : ∀ e : VmErr, msgOKP (errMsg e) := by
  intro e
  cases e <;> exact ⟨by decide, by decide, by decide, by decide⟩

/-- The error-push idiom either lands the message on top of the stack or was
rejected by the quota, in which case even 64 spare bytes were not left. -/
theorem errPush_cases (s : VMState) (msg : String) (h : msgOKP msg) :
    ErrStrTop (errPush s msg) ∨
      maxMemory < memUsage (errPush s msg).stack + 64 := by
  unfold errPush pushV
  split
  · right
    have h64 := h.2.2.2
    simp only []
    omega
  · left
    refine ⟨strToBigInt msg, s.stack, by simp, ?_, ?_⟩
    · rw [h.1]; exact h.2.1
    · rw [h.1]; exact h.2.2.1

theorem pushChecked_ne_fin (s : VMState) (v : Int) (b : Bool) (s' : VMState) :
    pushChecked s v ≠ .fin b s' := by
  unfold pushChecked; split <;> simp

theorem bodyBin_ne_fin (s : VMState) (f : Int → Int → Int) (b : Bool)
    (s' : VMState) : bodyBin s f ≠ .fin b s' := by
  simp only [bodyBin]
  split
  · simp
  · exact pushChecked_ne_fin _ _ _ _

theorem bodyDivMod_ne_fin (s : VMState) (f : Int → Int → Int) (b : Bool)
    (s' : VMState) : bodyDivMod s f ≠ .fin b s' := by
  simp only [bodyDivMod]
  split
  · simp
  · split
    · simp
    · exact pushChecked_ne_fin _ _ _ _

theorem bodyCmp_ne_fin (s : VMState) (p : Int → Int → Bool) (b : Bool)
    (s' : VMState) : bodyCmp s p ≠ .fin b s' := by
  simp only [bodyCmp]
  split <;> simp

theorem bodyShift_ne_fin (s : VMState) (f : Int → Nat → Int) (b : Bool)
    (s' : VMState) : bodyShift s f ≠ .fin b s' := by
  simp only [bodyShift]
  split
  · simp
  · exact pushChecked_ne_fin _ _ _ _

theorem bodyCallCore_ne_fin (s : VMState) (ra n : Nat) (b : Bool)
    (s' : VMState) : bodyCallCore s ra n ≠ .fin b s' := by
  unfold bodyCallCore
  split
  · simp
  · split <;> simp

theorem calldataLoopAux_ne_fin (fuel : Nat) :
    ∀ (s : VMState) (td : List Nat) (i : Nat) (b : Bool) (s' : VMState),
      calldataLoopAux fuel s td i ≠ .fin b s' := by
  induction fuel with
  | zero => intro s td i b s'; simp [calldataLoopAux]
  | succ fuel ih =>
    intro s td i b s'
    simp only [calldataLoopAux]
    split
    · split
      · simp
      · split
        · exact ih _ td _ b s'
        · simp
    · simp

set_option maxHeartbeats 2000000 in
/-- The only opcode bodies that return directly are `errhalt` (false) and
`halt` (true), and both leave the state untouched. -/
theorem dispatch_fin (op : Op) (s : VMState) (b : Bool) (s' : VMState)
    (h : dispatch op s = .fin b s') :
    (op = .errhalt ∧ b = false ∧ s' = s) ∨
      (op = .halt ∧ b = true ∧ s' = s) := by
  cases op
  case add => exact absurd (by simpa only [dispatch] using h) (bodyBin_ne_fin _ _ _ _)
  case sub => exact absurd (by simpa only [dispatch] using h) (bodyBin_ne_fin _ _ _ _)
  case mult => exact absurd (by simpa only [dispatch] using h) (bodyBin_ne_fin _ _ _ _)
  case div => exact absurd (by simpa only [dispatch] using h) (bodyDivMod_ne_fin _ _ _ _)
  case mod => exact absurd (by simpa only [dispatch] using h) (bodyDivMod_ne_fin _ _ _ _)
  case eq => exact absurd (by simpa only [dispatch] using h) (bodyCmp_ne_fin _ _ _ _)
  case neq => exact absurd (by simpa only [dispatch] using h) (bodyCmp_ne_fin _ _ _ _)
  case lt => exact absurd (by simpa only [dispatch] using h) (bodyCmp_ne_fin _ _ _ _)
  case gt => exact absurd (by simpa only [dispatch] using h) (bodyCmp_ne_fin _ _ _ _)
  case lte => exact absurd (by simpa only [dispatch] using h) (bodyCmp_ne_fin _ _ _ _)
  case gte => exact absurd (by simpa only [dispatch] using h) (bodyCmp_ne_fin _ _ _ _)
  case shiftl => exact absurd (by simpa only [dispatch] using h) (bodyShift_ne_fin _ _ _ _)
  case shiftr => exact absurd (by simpa only [dispatch] using h) (bodyShift_ne_fin _ _ _ _)
  case calldata =>
    exact absurd (by simpa only [dispatch, calldataLoop] using h)
      (calldataLoopAux_ne_fin _ _ _ _ _ _)
  case errhalt =>
    simp only [dispatch, BodyOut.fin.injEq] at h
    exact Or.inl ⟨rfl, h.1.symm, h.2.symm⟩
  case halt =>
    simp only [dispatch, BodyOut.fin.injEq] at h
    exact Or.inr ⟨rfl, h.1.symm, h.2.symm⟩
  all_goals
    simp only [dispatch, pushChecked] at h
  all_goals
    repeat' split at h
  all_goals
    first
      | exact absurd h (bodyCallCore_ne_fin _ _ _ _ _)
      | simp_all

/-- Only byte 26 decodes to `errhalt`. -/
theorem decodeOp_errhalt (b : Nat) (h : decodeOp b = some .errhalt) : b = 26 := by
  have hlt : b < opCodesLen := decodeOp_lt b .errhalt h
  have hd : ∀ c, c < 50 → decodeOp c = some Op.errhalt → c = 26 := by decide
  exact hd b hlt h

/-- Any false return of a single step either performed the error-push idiom
with a well-behaved message, or came from `errhalt`, in which case the
returned state sits just past an `errhalt` byte with its stack untouched. -/
theorem step_false (s sf : VMState) (h : step s = .ret false sf) :
    (∃ (s₁ : VMState) (msg : String), msgOKP msg ∧ sf = errPush s₁ msg) ∨
      (∃ p, sf.pc = p + 1 ∧ sf.code[p]? = some 26) := by
  unfold step at h
  cases hcb : s.code[s.pc]? with
  | none =>
    simp only [fetch1, hcb, Step.ret.injEq] at h
    exact Or.inl ⟨s, errMsg .fetchOOB, msgOK_errMsg _, h.2.symm⟩
  | some b =>
    simp only [fetch1, hcb] at h
    by_cases hlt : opCodesLen < b
    · simp only [if_pos hlt, Step.ret.injEq] at h
      left
      refine ⟨{ s with pc := s.pc + 1 }, "Not a valid opCode",
        ⟨by decide, by decide, by decide, by decide⟩, h.2.symm⟩
    · simp only [if_neg hlt] at h
      cases hdec : decodeOp b with
      | none => simp [hdec] at h
      | some op =>
        simp only [hdec] at h
        by_cases hfee : s.fee < gasPrice op
        · simp only [if_pos hfee, Step.ret.injEq] at h
          left
          refine ⟨{ s with pc := s.pc + 1 }, "out of gas",
            ⟨by decide, by decide, by decide, by decide⟩, h.2.symm⟩
        · simp only [if_neg hfee] at h
          cases hd : dispatch op { s with pc := s.pc + 1, fee := s.fee - gasPrice op } with
          | err e s₁ =>
            rw [hd] at h
            simp only [mapOut, Step.ret.injEq] at h
            exact Or.inl ⟨s₁, errMsg e, msgOK_errMsg _, h.2.symm⟩
          | fin b' s₁ =>
            rw [hd] at h
            simp only [mapOut, Step.ret.injEq] at h
            obtain ⟨hb', hs₁⟩ := h
            rcases dispatch_fin op _ _ _ hd with ⟨hop, hbf, hse⟩ | ⟨hop, hbt, hse⟩
            · right
              refine ⟨s.pc, ?_, ?_⟩
              · rw [← hs₁, hse]
              · rw [← hs₁, hse]
                subst hop
                simpa using decodeOp_errhalt b hdec ▸ hcb
            · rw [hbt] at hb'; exact absurd hb'.symm (by simp)
          | next s₁ => rw [hd] at h; simp [mapOut] at h
          | crash => rw [hd] at h; simp [mapOut] at h

/-- Along any bounded run, a false return satisfies the same disjunction,
with the error push analysed into the two stack outcomes. -/
theorem iter_false (k : Nat) : ∀ (s sf : VMState), iter k s = .ret false sf →
    ErrStrTop sf ∨ maxMemory < memUsage sf.stack + 64 ∨
      (∃ p, sf.pc = p + 1 ∧ sf.code[p]? = some 26) := by
  induction k with
  | zero => intro s sf h; simp [iter] at h
  | succ k ih =>
    intro s sf h
    unfold iter at h
    cases hs : step s with
    | ret b s2 =>
      rw [hs] at h
      simp only [RunRes.ret.injEq] at h
      rw [h.1, h.2] at hs
      rcases step_false s sf hs with ⟨s₁, msg, hmsg, rfl⟩ | hright
      · rcases errPush_cases s₁ msg hmsg with hl | hr
        · exact Or.inl hl
        · exact Or.inr (Or.inl hr)
      · exact Or.inr (Or.inr hright)
    | cont s2 => rw [hs] at h; exact ih s2 sf h
    | crash => rw [hs] at h; simp at h

/-- C2 counterexample: executing the one-byte contract `[errhalt]` on an
empty evaluation stack returns false with the evaluation stack still empty —
no error string is on top of the stack. -/
theorem c2_counterexample :
    execVM 1 (testCtx [26] 5) =
      RunRes.ret false
        { code := [26], pc := 1, stack := [], callStack := [],
          ctx := testCtx [26] 5, fee := 4 } := rfl

/-- C2 (amended): whenever `Exec` returns false, either the evaluation stack
is non-empty with its top decoding to a non-empty ASCII string, or the
attempted error-string push itself exceeded the stack's memory quota (fewer
than 64 spare bytes), or the failing instruction was `errhalt` (byte 26,
sitting just before the final pc), which returns false leaving the stack
untouched — possibly empty. -/
theorem c2_errors_on_stack (fuel : Nat) (ctx : Ctx) (sf : VMState)
    (h : execVM fuel ctx = .ret false sf) :
    ErrStrTop sf ∨ maxMemory < memUsage sf.stack + 64 ∨
      (∃ p, sf.pc = p + 1 ∧ sf.code[p]? = some 26) := by
  simp only [execVM] at h
  split at h
  · simp only [RunRes.ret.injEq] at h
    have hm : msgOKP "Instruction set to big" :=
      ⟨by decide, by decide, by decide, by decide⟩
    rw [← h.2]
    rcases errPush_cases (initialState ctx) _ hm with hl | hr
    · exact Or.inl hl
    · exact Or.inr (Or.inl hr)
  · exact iter_false fuel _ sf h

/-- The final state of the C2 witness run: division by zero leaves the error
string on top of the stack. -/
def c2state : VMState :=
  { code := [0, 0, 1, 0, 0, 0, 7, 25], pc := 7,
    stack := [strToBigInt "Division by Zero"], callStack := [],
    ctx := testCtx [0, 0, 1, 0, 0, 0, 7, 25] 10, fee := 7 }

/-- C2 witness: evaluating the amended theorem on a concrete failing run
(`1 / 0`), whose final stack top indeed decodes to a non-empty ASCII
string. -/
theorem c2_witness :
    ErrStrTop c2state ∨ maxMemory < memUsage c2state.stack + 64 ∨
      (∃ p, c2state.pc = p + 1 ∧ c2state.code[p]? = some 26) :=
  c2_errors_on_stack 4 (testCtx [0, 0, 1, 0, 0, 0, 7, 25] 10) c2state rfl

end BazoVM
